import Mathlib

/-!
Verification of the `mountaineer` watch subsystem (`src/mountaineer/watch.py`):
package-path resolution, path merging, debounced event dispatch with
self-mutation suppression, and the file-based instance lock.

The Python code is shallowly embedded: classes become structures, methods become
functions that pass state explicitly, exceptions become `Except`, and the
Python string operations used by the code are remodelled over `List Char`
(`pySplitSlash` for `str.split("/")`, `pyLstrip` for `str.lstrip(chars)`, and
so on) so that everything evaluates inside the kernel.
-/

/-! ### Python string primitives used by `watch.py` -/

/-- Models `str.split("/")` on the character list: splitting on every slash,
keeping empty components, as Python does. -/
def splitSlash : List Char → List (List Char)
  | [] => [[]]
  | c :: rest =>
    let r := splitSlash rest
    if c = '/' then [] :: r
    else (c :: r.headD []) :: r.tail

/-- Models Python `str(path).split("/")`. -/
def pySplitSlash (s : String) : List String :=
  (splitSlash s.data).map List.asString

/-- Models Python `component.startswith(".")`. -/
def startsWithDot (s : String) : Bool :=
  match s.data with
  | c :: _ => c = '.'
  | [] => false

/-- Models Python `str.lower()` (ASCII-level, as used on package/file names). -/
def pyLower (s : String) : String :=
  String.mk (s.data.map Char.toLower)

/-- Models Python `name.replace("-", "_")` (single-character replacement). -/
def pyReplaceDash (s : String) : String :=
  String.mk (s.data.map fun c => if c = '-' then '_' else c)

/-- Models Python `str.strip()`: drop whitespace from both ends. -/
def pyStrip (s : String) : String :=
  String.mk (((s.data.dropWhile Char.isWhitespace).reverse.dropWhile
    Char.isWhitespace).reverse)

/-- Models Python `str.lstrip(chars)`: drop every leading character that is a
member of the character SET `chars` (not the leading substring `chars`). -/
def pyLstrip (s chars : String) : String :=
  String.mk (s.data.dropWhile fun c => chars.data.contains c)

/-- Models Python `path.startswith("/")` / `PurePosixPath.is_absolute()`. -/
def startsWithSlash (s : String) : Bool :=
  match s.data with
  | c :: _ => c = '/'
  | [] => false

/-! ### `CallbackType` — a Python `enum.Flag` with three bits -/

/-- The three event-class bits of `CallbackType(Flag)` in `watch.py`. -/
structure CallbackType where
  created : Bool
  modified : Bool
  deleted : Bool
deriving DecidableEq, Repr

def CallbackType.CREATED : CallbackType := ⟨true, false, false⟩

def CallbackType.MODIFIED : CallbackType := ⟨false, true, false⟩

def CallbackType.DELETED : CallbackType := ⟨false, false, true⟩

/-- Models Python `a in b` on `Flag` values: every bit set in `a` is set in
`b`, i.e. `a & b == a`. -/
def CallbackType.mem (a b : CallbackType) : Bool :=
  (!a.created || b.created) && (!a.modified || b.modified) && (!a.deleted || b.deleted)

/-- The class of a single raw filesystem event, as delivered by watchdog to
`on_created` / `on_modified` / `on_deleted`. -/
inductive EventKind
  | created
  | modified
  | deleted
deriving DecidableEq, Repr

/-- The single-bit `CallbackType` that `_debounce` receives for each kind. -/
def EventKind.toCallbackType : EventKind → CallbackType
  | .created => .CREATED
  | .modified => .MODIFIED
  | .deleted => .DELETED

/-- A raw watchdog event: its class, `event.src_path` and
`event.is_directory`. -/
structure RawEvent where
  kind : EventKind
  src_path : String
  is_directory : Bool
deriving DecidableEq, Repr

/-- The observable behaviour of one registered zero-argument callback: a tag
`id` used to log its invocations, the raw filesystem events its own writes
cause while it runs, and whether it raises an exception. -/
structure CallbackAction where
  id : Nat
  emits : List RawEvent
  raises : Bool
deriving DecidableEq, Repr

/-- `CallbackDefinition` from `watch.py`: an event mask plus the callback. -/
structure CallbackDefinition where
  action : CallbackType
  callback : CallbackAction
deriving DecidableEq, Repr

/-- The default `ignore_list` of `ChangeEventHandler.__init__`. -/
def defaultIgnoreList : List String := ["__pycache__", "_ssr", "_static", "_server"]

/-- The immutable configuration of a `ChangeEventHandler`. -/
structure ChangeEventHandler where
  callbacks : List CallbackDefinition
  ignore_list : List String
  ignore_hidden : Bool
deriving DecidableEq, Repr

/-- The mutable fields of a `ChangeEventHandler`: the `ignore_changes`
suppression flag and the pending debounce timer, modelled by the action the
single scheduled `Timer` will fire (`none` when no timer is pending). -/
structure HandlerState where
  ignore_changes : Bool
  debounce_timer : Option CallbackType
deriving DecidableEq, Repr

/-- `ChangeEventHandler.should_ignore_path`. -/
def should_ignore_path (h : ChangeEventHandler) (st : HandlerState) (path : String) : Bool :=
  if st.ignore_changes then true
  else
    let path_components := pySplitSlash path
    if h.ignore_hidden && path_components.any (fun c => startsWithDot c) then true
    else if path_components.any (fun c => h.ignore_list.contains c) then true
    else false

/-- `ChangeEventHandler._debounce`: cancel whatever timer is pending — of any
class — and schedule a fresh timer carrying `action`.  The handler has a
single `debounce_timer` field shared by all three classes. -/
def debounce (st : HandlerState) (action : CallbackType) : HandlerState :=
  { st with debounce_timer := some action }

/-- `ChangeEventHandler.on_created`. -/
def on_created (h : ChangeEventHandler) (st : HandlerState) (event : RawEvent) : HandlerState :=
  if should_ignore_path h st event.src_path then st
  else if !event.is_directory then debounce st CallbackType.CREATED
  else st

/-- `ChangeEventHandler.on_modified`. -/
def on_modified (h : ChangeEventHandler) (st : HandlerState) (event : RawEvent) : HandlerState :=
  if should_ignore_path h st event.src_path then st
  else if !event.is_directory then debounce st CallbackType.MODIFIED
  else st

/-- `ChangeEventHandler.on_deleted`. -/
def on_deleted (h : ChangeEventHandler) (st : HandlerState) (event : RawEvent) : HandlerState :=
  if should_ignore_path h st event.src_path then st
  else if !event.is_directory then debounce st CallbackType.DELETED
  else st

/-- Routes a raw watchdog event to the matching handler method. -/
def dispatchEvent (h : ChangeEventHandler) (st : HandlerState) (e : RawEvent) : HandlerState :=
  match e.kind with
  | .created => on_created h st e
  | .modified => on_modified h st e
  | .deleted => on_deleted h st e

/-- The raw events a running callback causes are delivered to the handler one
by one while the callback executes. -/
def runEmits (h : ChangeEventHandler) (st : HandlerState) (events : List RawEvent) :
    HandlerState :=
  events.foldl (dispatchEvent h) st

/-- The `for callback in self.callbacks` loop of `handle_callbacks`: invoke, in
registration order, each callback whose mask contains `action`, logging its id;
a raising callback aborts the loop with the exception propagating (third
component `true`). -/
def handleLoop (h : ChangeEventHandler) (action : CallbackType) :
    List CallbackDefinition → HandlerState → List Nat → HandlerState × List Nat × Bool
  | [], st, log => (st, log, false)
  | cb :: rest, st, log =>
    if action.mem cb.action then
      let st' := runEmits h st cb.callback.emits
      if cb.callback.raises then (st', log ++ [cb.callback.id], true)
      else handleLoop h action rest st' (log ++ [cb.callback.id])
    else handleLoop h action rest st log

/-- `ChangeEventHandler.handle_callbacks`: set `ignore_changes`, run the loop,
then clear `ignore_changes` — but the clearing line is only reached when no
callback raised, since there is no `try/finally` around the loop. -/
def handle_callbacks (h : ChangeEventHandler) (st : HandlerState) (action : CallbackType) :
    HandlerState × List Nat × Bool :=
  let st1 := { st with ignore_changes := true }
  match handleLoop h action h.callbacks st1 [] with
  | (st2, log, true) => (st2, log, true)
  | (st2, log, false) => ({ st2 with ignore_changes := false }, log, false)

/-- Deliver a burst of raw events to the handler (all within one debounce
window, so no timer fires in between). -/
def processEvents (h : ChangeEventHandler) (st : HandlerState) (events : List RawEvent) :
    HandlerState :=
  events.foldl (dispatchEvent h) st

/-- The debounce window elapses: the single pending timer, if any, fires
`handle_callbacks` with the action it carries. -/
def fireTimer (h : ChangeEventHandler) (st : HandlerState) :
    HandlerState × List Nat × Bool :=
  match st.debounce_timer with
  | none => (st, [], false)
  | some a => handle_callbacks h { st with debounce_timer := none } a

/-- One quiescent period: a burst of raw events followed by the timer firing. -/
def runWindow (h : ChangeEventHandler) (st : HandlerState) (events : List RawEvent) :
    HandlerState × List Nat × Bool :=
  fireTimer h (processEvents h st events)

/-- The path-noise filter of `should_ignore_path` with the suppression flag
off: what the handler drops based on the path alone. -/
def staticIgnore (h : ChangeEventHandler) (path : String) : Bool :=
  should_ignore_path h ⟨false, none⟩ path

/-! ### Dispatcher lemmas -/

lemma should_ignore_path_of_flag (h : ChangeEventHandler) (st : HandlerState) (path : String)
    (hig : st.ignore_changes = true) : should_ignore_path h st path = true := by
  simp [should_ignore_path, hig]

lemma should_ignore_path_eq_static (h : ChangeEventHandler) (st : HandlerState) (path : String)
    (hig : st.ignore_changes = false) : should_ignore_path h st path = staticIgnore h path := by
  simp [should_ignore_path, staticIgnore, hig]

lemma dispatchEvent_of_flag (h : ChangeEventHandler) (st : HandlerState) (e : RawEvent)
    (hig : st.ignore_changes = true) : dispatchEvent h st e = st := by
  cases hk : e.kind <;>
    simp [dispatchEvent, hk, on_created, on_modified, on_deleted,
      should_ignore_path_of_flag h st _ hig]

lemma runEmits_of_flag (h : ChangeEventHandler) (st : HandlerState) (events : List RawEvent)
    (hig : st.ignore_changes = true) : runEmits h st events = st := by
  induction events with
  | nil => rfl
  | cons e es ih =>
    simpa [runEmits, dispatchEvent_of_flag h st e hig] using ih

lemma handleLoop_no_raise (h : ChangeEventHandler) (action : CallbackType) :
    ∀ (cbs : List CallbackDefinition) (st : HandlerState) (log : List Nat),
      st.ignore_changes = true →
      (∀ cb ∈ cbs, action.mem cb.action = true → cb.callback.raises = false) →
      handleLoop h action cbs st log =
        (st, log ++ (cbs.filter fun cb => action.mem cb.action).map (fun cb => cb.callback.id),
         false)
  | [], st, log, _, _ => by simp [handleLoop]
  | cb :: rest, st, log, hig, hnr => by
    by_cases hm : action.mem cb.action = true
    · have hr : cb.callback.raises = false := hnr cb (by simp) hm
      have hrec := handleLoop_no_raise h action rest
        (runEmits h st cb.callback.emits) (log ++ [cb.callback.id])
        (by rw [runEmits_of_flag h st _ hig]; exact hig)
        (fun c hc hmc => hnr c (by simp [hc]) hmc)
      simp only [handleLoop, hm, if_true, hr, if_false]
      rw [hrec, runEmits_of_flag h st _ hig]
      simp [hm, List.filter_cons]
    · have hrec := handleLoop_no_raise h action rest st log hig
        (fun c hc hmc => hnr c (by simp [hc]) hmc)
      simp only [handleLoop, hm] at hrec ⊢
      simp only [Bool.not_eq_true] at hm
      rw [if_neg (by simp [hm])]
      rw [hrec]
      simp [List.filter_cons, hm]

lemma handleLoop_raise (h : ChangeEventHandler) (action : CallbackType) :
    ∀ (cbs : List CallbackDefinition) (st : HandlerState) (log : List Nat),
      st.ignore_changes = true →
      (∃ cb ∈ cbs, action.mem cb.action = true ∧ cb.callback.raises = true) →
      (handleLoop h action cbs st log).1 = st ∧ (handleLoop h action cbs st log).2.2 = true
  | [], _, _, _, hex => by simp at hex
  | cb :: rest, st, log, hig, hex => by
    by_cases hm : action.mem cb.action = true
    · by_cases hr : cb.callback.raises = true
      · simp only [handleLoop, hm, if_true, hr]
        exact ⟨runEmits_of_flag h st _ hig, trivial⟩
      · obtain ⟨c, hc, hmc, hrc⟩ := hex
        have hcrest : c ∈ rest := by
          rcases List.mem_cons.mp hc with rfl | hc'
          · exact absurd hrc hr
          · exact hc'
        have hrec := handleLoop_raise h action rest
          (runEmits h st cb.callback.emits) (log ++ [cb.callback.id])
          (by rw [runEmits_of_flag h st _ hig]; exact hig) ⟨c, hcrest, hmc, hrc⟩
        simp only [handleLoop, hm, if_true, hr, if_false] at hrec ⊢
        rw [runEmits_of_flag h st _ hig] at hrec ⊢
        simp only [Bool.false_eq_true, if_false]
        exact hrec
    · obtain ⟨c, hc, hmc, hrc⟩ := hex
      have hcrest : c ∈ rest := by
        rcases List.mem_cons.mp hc with rfl | hc'
        · exact absurd hmc hm
        · exact hc'
      have hrec := handleLoop_raise h action rest st log hig ⟨c, hcrest, hmc, hrc⟩
      simpa [handleLoop, hm] using hrec

lemma dispatchEvent_qualifying (h : ChangeEventHandler) (st : HandlerState) (e : RawEvent)
    (hig : st.ignore_changes = false) (hdir : e.is_directory = false)
    (hpath : staticIgnore h e.src_path = false) :
    dispatchEvent h st e = ⟨false, some e.kind.toCallbackType⟩ := by
  obtain ⟨ig, tm⟩ := st
  simp only at hig
  subst hig
  cases hk : e.kind <;>
    simp [dispatchEvent, hk, on_created, on_modified, on_deleted,
      should_ignore_path_eq_static, hpath, hdir, debounce, EventKind.toCallbackType]

lemma processEvents_last (h : ChangeEventHandler) (events : List RawEvent) :
    ∀ (st : HandlerState) (elast : RawEvent),
      st.ignore_changes = false →
      (∀ e ∈ events, e.is_directory = false ∧ staticIgnore h e.src_path = false) →
      events.getLast? = some elast →
      processEvents h st events = ⟨false, some elast.kind.toCallbackType⟩ := by
  induction events with
  | nil =>
    intro st elast _ _ hlast
    simp at hlast
  | cons e es ih =>
    intro st elast hig hqual hlast
    have hd := dispatchEvent_qualifying h st e hig (hqual e (by simp)).1 (hqual e (by simp)).2
    cases es with
    | nil =>
      have he : elast = e := by simpa using hlast.symm
      subst he
      simpa [processEvents] using hd
    | cons e2 es2 =>
      have hrec := ih ⟨false, some e.kind.toCallbackType⟩ elast rfl
        (fun x hx => hqual x (by simp [hx])) (by simpa using hlast)
      simp only [processEvents, List.foldl_cons] at hrec ⊢
      rw [hd]
      exact hrec

/-! ### Claims about the debounced dispatcher -/

/-- C3: for every event class k (Created, Modified or Deleted) and every burst
of N ≥ 1 qualifying raw events all of class k within one debounce window,
exactly one callback batch fires after quiescence, and it synchronously
invokes, in registration order, exactly those registered callbacks whose event
mask includes the fired class, each exactly once; the timer is consumed and
the suppression flag ends cleared. -/
theorem C3_same_class_burst_one_batch (h : ChangeEventHandler) (st : HandlerState)
    (events : List RawEvent) (elast : RawEvent) (k : EventKind)
    (hflag : st.ignore_changes = false)
    (hlast : events.getLast? = some elast)
    (hkind : ∀ e ∈ events, e.kind = k)
    (hqual : ∀ e ∈ events, e.is_directory = false ∧ staticIgnore h e.src_path = false)
    (hnoraise : ∀ cb ∈ h.callbacks, k.toCallbackType.mem cb.action = true →
      cb.callback.raises = false) :
    runWindow h st events =
      (⟨false, none⟩,
       (h.callbacks.filter fun cb => k.toCallbackType.mem cb.action).map
         (fun cb => cb.callback.id),
       false) := by
  have hx : elast ∈ events.getLast? := Option.mem_def.mpr hlast
  obtain ⟨hne, heq⟩ := List.mem_getLast?_eq_getLast hx
  have hmem : elast ∈ events := heq ▸ List.getLast_mem hne
  have hek : elast.kind = k := hkind elast hmem
  have hp := processEvents_last h events st elast hflag hqual hlast
  rw [hek] at hp
  have hloop := handleLoop_no_raise h k.toCallbackType h.callbacks
    ⟨true, none⟩ [] rfl hnoraise
  simp only [runWindow, hp, fireTimer, handle_callbacks]
  rw [show ((⟨true, none⟩ : HandlerState) : HandlerState)
      = { (⟨false, some k.toCallbackType⟩ : HandlerState) with
          ignore_changes := true, debounce_timer := none } from rfl] at hloop
  rw [hloop]
  simp

/-- Concrete three-event Modified burst used as the C3 witness input. -/
def c3Handler : ChangeEventHandler :=
  ⟨[⟨CallbackType.MODIFIED, ⟨0, [], false⟩⟩, ⟨CallbackType.CREATED, ⟨1, [], false⟩⟩,
    ⟨⟨true, true, true⟩, ⟨2, [], false⟩⟩], defaultIgnoreList, true⟩

def c3Events : List RawEvent :=
  [⟨.modified, "/pkg/a.py", false⟩, ⟨.modified, "/pkg/a.py", false⟩,
   ⟨.modified, "/pkg/a.py", false⟩]

theorem C3_witness :
    c3Events.getLast? = some ⟨.modified, "/pkg/a.py", false⟩
    ∧ (∀ e ∈ c3Events, e.kind = EventKind.modified)
    ∧ (∀ e ∈ c3Events, e.is_directory = false ∧ staticIgnore c3Handler e.src_path = false)
    ∧ (∀ cb ∈ c3Handler.callbacks, (EventKind.modified).toCallbackType.mem cb.action = true →
        cb.callback.raises = false)
    ∧ runWindow c3Handler ⟨false, none⟩ c3Events =
        (⟨false, none⟩,
         (c3Handler.callbacks.filter fun cb =>
           (EventKind.modified).toCallbackType.mem cb.action).map
           (fun cb => cb.callback.id),
         false) :=
  ⟨by decide, by decide, by decide, by decide,
   C3_same_class_burst_one_batch c3Handler ⟨false, none⟩ c3Events
     ⟨.modified, "/pkg/a.py", false⟩ EventKind.modified rfl (by decide) (by decide)
     (by decide) (by decide)⟩

/-- C1 counterexample: one qualifying Created event and one qualifying
Modified event on different files inside the same debounce window.  The claim
says each class's pending timer is unaffected by the other class's events and
each class's callbacks fire independently; in the code the single shared
`debounce_timer` lets the Modified event cancel the pending Created timer, so
only the Modified callback (id 1) fires and the Created callback (id 0) is
invoked zero times rather than once. -/
theorem C1_counterexample_shared_timer :
    (runWindow ⟨[⟨CallbackType.CREATED, ⟨0, [], false⟩⟩,
        ⟨CallbackType.MODIFIED, ⟨1, [], false⟩⟩], defaultIgnoreList, true⟩
      ⟨false, none⟩
      [⟨.created, "/pkg/created.py", false⟩, ⟨.modified, "/pkg/modified.py", false⟩]).2.1
      = [1]
    ∧ (runWindow ⟨[⟨CallbackType.CREATED, ⟨0, [], false⟩⟩,
        ⟨CallbackType.MODIFIED, ⟨1, [], false⟩⟩], defaultIgnoreList, true⟩
      ⟨false, none⟩
      [⟨.created, "/pkg/created.py", false⟩, ⟨.modified, "/pkg/modified.py", false⟩]).2.1.count 0
      = 0 :=
  ⟨by decide, by decide⟩

/-- C1 (amended): all event classes share the single `debounce_timer`, so a
qualifying event of any class cancels the pending timer — including one of a
different class — and schedules its own; when the window closes exactly one
batch fires, for the class of the LAST qualifying event, invoking in
registration order exactly the callbacks whose mask includes that class (the
earlier class's callbacks are not invoked at all). -/
theorem C1_amended_last_event_class_wins (h : ChangeEventHandler) (st : HandlerState)
    (events : List RawEvent) (elast : RawEvent)
    (hflag : st.ignore_changes = false)
    (hlast : events.getLast? = some elast)
    (hqual : ∀ e ∈ events, e.is_directory = false ∧ staticIgnore h e.src_path = false)
    (hnoraise : ∀ cb ∈ h.callbacks, elast.kind.toCallbackType.mem cb.action = true →
      cb.callback.raises = false) :
    runWindow h st events =
      (⟨false, none⟩,
       (h.callbacks.filter fun cb => elast.kind.toCallbackType.mem cb.action).map
         (fun cb => cb.callback.id),
       false) := by
  have hp := processEvents_last h events st elast hflag hqual hlast
  have hloop := handleLoop_no_raise h elast.kind.toCallbackType h.callbacks
    ⟨true, none⟩ [] rfl hnoraise
  simp only [runWindow, hp, fireTimer, handle_callbacks]
  rw [show ((⟨true, none⟩ : HandlerState) : HandlerState)
      = { (⟨false, some elast.kind.toCallbackType⟩ : HandlerState) with
          ignore_changes := true, debounce_timer := none } from rfl] at hloop
  rw [hloop]
  simp

def c1Handler : ChangeEventHandler :=
  ⟨[⟨CallbackType.CREATED, ⟨0, [], false⟩⟩, ⟨CallbackType.MODIFIED, ⟨1, [], false⟩⟩],
   defaultIgnoreList, true⟩

def c1Events : List RawEvent :=
  [⟨.created, "/pkg/created.py", false⟩, ⟨.modified, "/pkg/modified.py", false⟩]

theorem C1_amended_witness :
    c1Events.getLast? = some ⟨.modified, "/pkg/modified.py", false⟩
    ∧ (∀ e ∈ c1Events, e.is_directory = false ∧ staticIgnore c1Handler e.src_path = false)
    ∧ (∀ cb ∈ c1Handler.callbacks,
        (EventKind.modified).toCallbackType.mem cb.action = true → cb.callback.raises = false)
    ∧ runWindow c1Handler ⟨false, none⟩ c1Events =
        (⟨false, none⟩,
         (c1Handler.callbacks.filter fun cb =>
           (RawEvent.mk .modified "/pkg/modified.py" false).kind.toCallbackType.mem cb.action).map
           (fun cb => cb.callback.id),
         false) :=
  ⟨by decide, by decide, by decide,
   C1_amended_last_event_class_wins c1Handler ⟨false, none⟩ c1Events
     ⟨.modified, "/pkg/modified.py", false⟩ rfl (by decide) (by decide) (by decide)⟩

/-- C4: self-mutation suppression.  While `ignore_changes` is set every raw
event is dropped before debouncing (first conjunct); and a fired batch — whose
callbacks may write files into the watched roots, i.e. have arbitrary `emits`
— sets the flag before the first callback, runs exactly the matching callbacks
in registration order, and clears the flag afterwards, leaving the state
exactly as before the batch: in particular no emitted event schedules a timer,
so a callback never triggers a recursive callback invocation. -/
theorem C4_suppression_no_recursive_invocation (h : ChangeEventHandler) (st : HandlerState)
    (action : CallbackType)
    (hflag : st.ignore_changes = false)
    (hnoraise : ∀ cb ∈ h.callbacks, action.mem cb.action = true → cb.callback.raises = false) :
    (∀ (st' : HandlerState) (e : RawEvent), st'.ignore_changes = true →
      dispatchEvent h st' e = st')
    ∧ handle_callbacks h st action =
        (st, (h.callbacks.filter fun cb => action.mem cb.action).map (fun cb => cb.callback.id),
         false) := by
  constructor
  · exact fun st' e hig => dispatchEvent_of_flag h st' e hig
  · obtain ⟨ig, tm⟩ := st
    simp only at hflag
    subst hflag
    have hloop := handleLoop_no_raise h action h.callbacks ⟨true, tm⟩ [] rfl hnoraise
    simp only [handle_callbacks]
    rw [show ((⟨true, tm⟩ : HandlerState) : HandlerState)
        = { (⟨false, tm⟩ : HandlerState) with ignore_changes := true } from rfl] at hloop
    rw [hloop]
    simp

def c4Handler : ChangeEventHandler :=
  ⟨[⟨CallbackType.MODIFIED, ⟨0, [⟨.modified, "/pkg/generated.py", false⟩], false⟩⟩],
   defaultIgnoreList, true⟩

theorem C4_witness :
    ((⟨false, none⟩ : HandlerState).ignore_changes = false)
    ∧ (∀ cb ∈ c4Handler.callbacks, CallbackType.MODIFIED.mem cb.action = true →
        cb.callback.raises = false)
    ∧ ((∀ (st' : HandlerState) (e : RawEvent), st'.ignore_changes = true →
          dispatchEvent c4Handler st' e = st')
       ∧ handle_callbacks c4Handler ⟨false, none⟩ CallbackType.MODIFIED =
          (⟨false, none⟩,
           (c4Handler.callbacks.filter fun cb => CallbackType.MODIFIED.mem cb.action).map
             (fun cb => cb.callback.id),
           false)) :=
  ⟨rfl, by decide,
   C4_suppression_no_recursive_invocation c4Handler ⟨false, none⟩ CallbackType.MODIFIED
     rfl (by decide)⟩

/-- C10 (implicit): `handle_callbacks` has no `try/finally`, so when a matching
callback raises, the `self.ignore_changes = False` line is never reached: the
exception propagates with the suppression flag still set, and from then on
`should_ignore_path` returns true for every path, i.e. every subsequent
filesystem event is ignored for the remainder of the session. -/
theorem C10_raise_leaves_suppression_set (h : ChangeEventHandler) (st : HandlerState)
    (action : CallbackType)
    (hraise : ∃ cb ∈ h.callbacks, action.mem cb.action = true ∧ cb.callback.raises = true) :
    (handle_callbacks h st action).2.2 = true
    ∧ (handle_callbacks h st action).1.ignore_changes = true
    ∧ ∀ path, should_ignore_path h (handle_callbacks h st action).1 path = true := by
  have hloop := handleLoop_raise h action h.callbacks { st with ignore_changes := true } []
    rfl hraise
  rcases hres : handleLoop h action h.callbacks { st with ignore_changes := true } [] with
    ⟨st2, log2, raised2⟩
  rw [hres] at hloop
  simp only at hloop
  obtain ⟨hst2, hraised⟩ := hloop
  subst hraised
  subst hst2
  have hcb : handle_callbacks h st action = ({ st with ignore_changes := true }, log2, true) := by
    simp only [handle_callbacks, hres]
  rw [hcb]
  exact ⟨rfl, rfl, fun path => should_ignore_path_of_flag h _ path rfl⟩

def c10Handler : ChangeEventHandler :=
  ⟨[⟨CallbackType.MODIFIED, ⟨0, [], true⟩⟩], defaultIgnoreList, true⟩

theorem C10_witness :
    (∃ cb ∈ c10Handler.callbacks, CallbackType.MODIFIED.mem cb.action = true
      ∧ cb.callback.raises = true)
    ∧ ((handle_callbacks c10Handler ⟨false, none⟩ CallbackType.MODIFIED).2.2 = true
       ∧ (handle_callbacks c10Handler ⟨false, none⟩ CallbackType.MODIFIED).1.ignore_changes = true
       ∧ ∀ path, should_ignore_path c10Handler
          (handle_callbacks c10Handler ⟨false, none⟩ CallbackType.MODIFIED).1 path = true) :=
  ⟨by decide,
   C10_raise_leaves_suppression_set c10Handler ⟨false, none⟩ CallbackType.MODIFIED (by decide)⟩

/-! ### `PackageWatchdog.resolve_package_path` -/

/-- One entry of an installed distribution's file manifest
(`importlib.metadata.PackagePath`): its relative path split into parts, the
file's raw text (`read_text`), and — for `direct_url.json` records — the
`url` field that `json_loads(text)["url"]` extracts, carried here as a
separate field since JSON decoding itself is an external library call. -/
structure PackagePath where
  parts : List String
  text : String
  url : String
deriving DecidableEq, Repr

/-- `path.name`: the final path component. -/
def PackagePath.name (p : PackagePath) : String := p.parts.getLastD ""

/-- `path.parent.name`: the name of the containing directory. -/
def PackagePath.parentName (p : PackagePath) : String := p.parts.dropLast.getLastD ""

/-- `path.parent` rendered back to a relative path string. -/
def PackagePath.parentStr (p : PackagePath) : String :=
  String.intercalate "/" p.parts.dropLast

/-- The slice of `importlib.metadata.Distribution` that
`resolve_package_path` consults: the project name, the installation base
directory that `locate_file` joins against, and the file manifest (`None`
when the installation recorded no files). -/
structure Distribution where
  name : String
  base : String
  files : Option (List PackagePath)
deriving DecidableEq, Repr

/-- `Distribution.locate_file`: join a manifest-relative path against the
installation base; posix-path join semantics keep an absolute argument
unchanged. -/
def Distribution.locate_file (d : Distribution) (path : String) : String :=
  if startsWithSlash path then path else d.base ++ "/" ++ path

/-- `dist.name.replace("-", "_").lower()`. -/
def normalizedName (d : Distribution) : String := pyLower (pyReplaceDash d.name)

/-- The character class `[0-9-.]` of the dist-info regex. -/
def isVerChar (c : Char) : Bool := c.isDigit || c = '-' || c = '.'

def distInfoTail : List Char := ".dist-info".data

/-- After at least one `[0-9-.]` character has been consumed, accept as soon
as the literal `.dist-info` follows. -/
def verRun : List Char → Bool
  | [] => false
  | c :: cs => isVerChar c && (distInfoTail.isPrefixOf cs || verRun cs)

/-- Does `nm ++ "-" ++ <one or more of [0-9-.]> ++ ".dist-info"` match at the
start of `s`? -/
def matchFrom (nm s : List Char) : Bool :=
  nm.isPrefixOf s &&
    match s.drop nm.length with
    | '-' :: rest => verRun rest
    | _ => false

/-- Models `re.search(package_name + r"-[0-9-.]+\.dist-info", s)`: unanchored
search for the pattern anywhere in `s`. -/
def searchDistInfo (nm : List Char) : List Char → Bool
  | [] => matchFrom nm []
  | c :: cs => matchFrom nm (c :: cs) || searchDistInfo nm cs

/-- Manifest entries named `<normalized_name>.pth` (editable-symlink
strategy). -/
def symbolicLinks (d : Distribution) : List PackagePath :=
  (d.files.getD []).filter fun p => pyLower p.name == normalizedName d ++ ".pth"

/-- Manifest entries named `direct_url.json` sitting in a matching
`<normalized_name>-<version>.dist-info` directory (direct-URL strategy). -/
def distLinks (d : Distribution) : List PackagePath :=
  (d.files.getD []).filter fun p =>
    p.name == "direct_url.json"
      && searchDistInfo (normalizedName d).data (pyLower p.parentName).data

/-- Manifest entries `__init__.py` whose immediate parent directory is named
exactly `<normalized_name>` (explicit-package-file strategy). -/
def explicitLinks (d : Distribution) : List PackagePath :=
  (d.files.getD []).filter fun p =>
    pyLower p.parentName == normalizedName d && p.name == "__init__.py"

/-- The `ValueError` raised when no strategy matches, carrying the package
name and the manifest listing that the message interpolates. -/
structure PathResolutionError where
  packageName : String
  availableFiles : Option (List PackagePath)
deriving DecidableEq, Repr

/-- `PackageWatchdog.resolve_package_path`. -/
def resolve_package_path (dist : Distribution) : Except PathResolutionError String :=
  match symbolicLinks dist with
  | direct_url_path :: _ => .ok (dist.locate_file (pyStrip direct_url_path.text))
  | [] =>
    match distLinks dist with
    | dist_link :: _ =>
      .ok (dist.locate_file ("/" ++ pyLstrip (pyLstrip dist_link.url "file://") "/"))
    | [] =>
      match explicitLinks dist with
      | explicit_link :: _ => .ok (dist.locate_file explicit_link.parentStr)
      | [] => .error ⟨dist.name, dist.files⟩

/-- The resolution algorithm as the spec words it (§4.1): an ordered list of
strategies, each contributing its first matching manifest entry's extraction;
the first strategy that matches wins, and when none matches the outcome is
`PathResolutionError{packageName, availableFiles}`. -/
def specStrategyResults (dist : Distribution) : List (Option String) :=
  [(symbolicLinks dist).head?.map (fun p => dist.locate_file (pyStrip p.text)),
   (distLinks dist).head?.map (fun p =>
     dist.locate_file ("/" ++ pyLstrip (pyLstrip p.url "file://") "/")),
   (explicitLinks dist).head?.map (fun p => dist.locate_file p.parentStr)]

/-- First-match-wins over the ordered strategy list, with the diagnostic
error as fallback — the spec-side form of the resolver. -/
def specResolve (dist : Distribution) : Except PathResolutionError String :=
  match (specStrategyResults dist).findSome? id with
  | some r => .ok r
  | none => .error ⟨dist.name, dist.files⟩

/-- C5: the resolver tries the three strategies in the fixed order
editable-symlink, direct-URL, explicit-package-file, returns the first
matching strategy's result, and when none matches fails — without crashing —
with a `PathResolutionError` carrying the package name and the manifest
listing: it coincides with the spec's ordered first-match-wins algorithm on
every distribution. -/
theorem C5_strategy_order_and_error (dist : Distribution) :
    resolve_package_path dist = specResolve dist := by
  rcases hsym : symbolicLinks dist with _ | ⟨p1, ps1⟩ <;>
    rcases hdl : distLinks dist with _ | ⟨p2, ps2⟩ <;>
      rcases hex : explicitLinks dist with _ | ⟨p3, ps3⟩ <;>
        simp [resolve_package_path, specResolve, specStrategyResults, hsym, hdl, hex,
          List.findSome?]

/-- A development install of `mountaineer` whose only usable manifest record
is a `direct_url.json` with `url = "file:///lib/mountaineer"`, i.e. the
absolute path `P = /lib/mountaineer` behind the file scheme. -/
def c2Dist : Distribution :=
  ⟨"mountaineer", "/venv/lib/python3.11/site-packages",
   some [⟨["mountaineer-0.1.0.dist-info", "direct_url.json"],
          "\x7b\"url\": \"file:///lib/mountaineer\"\x7d",
          "file:///lib/mountaineer"⟩]⟩

/-- Same shape for package `mylib` with `url = "file:///lil"`. -/
def c2DistB : Distribution :=
  ⟨"mylib", "/venv/lib/python3.11/site-packages",
   some [⟨["mylib-1.0.dist-info", "direct_url.json"],
          "\x7b\"url\": \"file:///lil\"\x7d",
          "file:///lil"⟩]⟩

/-- C2 fails on the code: `url.lstrip("file://")` strips the leading
CHARACTER SET `f,i,l,e,:,/`, not the prefix string, so for
`url = "file:///lib/mountaineer"` (P = `/lib/mountaineer`) the resolver
returns `/b/mountaineer` — the `l`,`i` of `lib` are eaten — instead of `P`;
for `url = "file:///lil"` (P = `/lil`, every character in the strip set) it
returns `/`, whose trailing component is not that of `P`. -/
theorem C2_lstrip_charset_eval :
    resolve_package_path c2Dist = Except.ok "/b/mountaineer"
    ∧ ("/b/mountaineer" : String) ≠ "/lib/mountaineer"
    ∧ resolve_package_path c2DistB = Except.ok "/" :=
  ⟨rfl, by decide, rfl⟩

/-! ### `PackageWatchdog.acquire_watchdog_lock` -/

/-- `Path.touch()`: create the file if missing (an existing file only gets a
new mtime). -/
def touchFile (fs : List String) (p : String) : List String :=
  if fs.contains p then fs else fs ++ [p]

/-- `Path.unlink()`: remove the file, raising `FileNotFoundError` when it does
not exist. -/
def unlinkFile (fs : List String) (p : String) : Except String (List String) :=
  if fs.contains p then .ok (fs.filter fun q => q != p) else .error "FileNotFoundError"

/-- How the body guarded by the lock terminates: normal completion of the
observer loop, `KeyboardInterrupt`, or any other exception. -/
inductive BodyOutcome
  | finishedNormally
  | keyboardInterrupt
  | raisedException
deriving DecidableEq, Repr

/-- The observable result of a watch session run under
`acquire_watchdog_lock`. -/
inductive SessionResult
  | lockHeld (lock_path : String)
  | completed (outcome : BodyOutcome)
  | unlinkFailed
deriving DecidableEq, Repr

/-- `acquire_watchdog_lock` as a context manager over a filesystem modelled as
the list of existing paths: if the lock artifact exists, raise
`WatchdogLockError(lock_path)` before touching anything; otherwise create the
artifact, run the guarded body (which may mutate the filesystem and end in any
outcome), and in the `finally` clause unlink the artifact — the body's
outcome, exceptional or not, propagates after the unlink. -/
def acquire_watchdog_lock (fs : List String) (lock_path : String)
    (body : List String → List String × BodyOutcome) : SessionResult × List String :=
  if fs.contains lock_path then (.lockHeld lock_path, fs)
  else
    let fs1 := touchFile fs lock_path
    let bodyRes := body fs1
    match unlinkFile bodyRes.1 lock_path with
    | .ok fs2 => (.completed bodyRes.2, fs2)
    | .error _ => (.unlinkFailed, bodyRes.1)

/-- C7: acquiring the lock on a directory whose `.watchdog.lock` artifact
already exists fails with the lock-held error carrying the lock path, before
any state change: the filesystem is returned untouched (the artifact is
neither deleted nor recreated) and the body — the watch session — never
runs, whatever it would have done. -/
theorem C7_lock_held_fails_before_state_change (fs : List String) (lock_path : String)
    (body : List String → List String × BodyOutcome)
    (hheld : fs.contains lock_path = true) :
    acquire_watchdog_lock fs lock_path body = (.lockHeld lock_path, fs) := by
  unfold acquire_watchdog_lock
  rw [hheld]
  simp

theorem C7_witness :
    (["/pkg/.watchdog.lock", "/pkg/main.py"].contains "/pkg/.watchdog.lock" = true)
    ∧ acquire_watchdog_lock ["/pkg/.watchdog.lock", "/pkg/main.py"] "/pkg/.watchdog.lock"
        (fun fs => (fs ++ ["/pkg/should_not_happen"], .finishedNormally))
      = (.lockHeld "/pkg/.watchdog.lock", ["/pkg/.watchdog.lock", "/pkg/main.py"]) :=
  ⟨by decide,
   C7_lock_held_fails_before_state_change _ _
     (fun fs => (fs ++ ["/pkg/should_not_happen"], .finishedNormally)) (by decide)⟩

/-- C8: after a successful acquisition the lock artifact is gone on every exit
path — normal completion, interrupt, or exception — because the unlink sits in
a `finally` clause: whatever the body does to the filesystem and however it
terminates, the final filesystem no longer contains the lock artifact. -/
theorem C8_lock_released_on_every_exit (fs : List String) (lock_path : String)
    (body : List String → List String × BodyOutcome)
    (hfree : fs.contains lock_path = false) :
    (acquire_watchdog_lock fs lock_path body).2.contains lock_path = false := by
  unfold acquire_watchdog_lock
  rw [hfree]
  simp only [Bool.false_eq_true, if_false]
  by_cases hin : (body (touchFile fs lock_path)).1.contains lock_path = true
  · rw [show unlinkFile (body (touchFile fs lock_path)).1 lock_path
        = .ok ((body (touchFile fs lock_path)).1.filter fun q => q != lock_path) from by
      unfold unlinkFile
      rw [if_pos hin]]
    simp
  · rw [show unlinkFile (body (touchFile fs lock_path)).1 lock_path
        = .error "FileNotFoundError" from by
      unfold unlinkFile
      rw [if_neg hin]]
    simpa using hin

theorem C8_witness :
    (["/pkg/main.py"].contains "/pkg/.watchdog.lock" = false)
    ∧ (acquire_watchdog_lock ["/pkg/main.py"] "/pkg/.watchdog.lock"
        (fun fs => (fs ++ ["/pkg/_static/out.js"], .keyboardInterrupt))).2.contains
        "/pkg/.watchdog.lock" = false :=
  ⟨by decide,
   C8_lock_released_on_every_exit _ _
     (fun fs => (fs ++ ["/pkg/_static/out.js"], .keyboardInterrupt)) (by decide)⟩

/-! ### `PackageWatchdog.merge_paths` -/

/-- One component of `Path.resolve()` on an absolute posix path, applied to an
accumulator of already-resolved components: empty and `.` components vanish,
`..` pops a component, anything else is appended. -/
def resolveStep (acc : List String) (part : String) : List String :=
  if part = "" ∨ part = "." then acc
  else if part = ".." then acc.dropLast
  else acc ++ [part]

/-- Models `Path(path).resolve()` for an absolute path given as its component
list below the root. -/
def resolveParts (parts : List String) : List String :=
  parts.foldl resolveStep []

/-- `path.is_relative_to(parent)` for absolute paths: the parent's component
list is a prefix of the child's. -/
def isRelativeTo (child parent : List String) : Bool :=
  parent.isPrefixOf child

/-- The sort key of `paths.sort(key=lambda path: len(path.parts))`. -/
def partsLE (p q : List String) : Prop := p.length ≤ q.length

instance : DecidableRel partsLE := fun p q => Nat.decLe p.length q.length

instance : IsTotal (List String) partsLE := ⟨fun a b => Nat.le_total a.length b.length⟩

instance : IsTrans (List String) partsLE := ⟨fun _ _ _ h1 h2 => Nat.le_trans h1 h2⟩

/-- The admission loop of `merge_paths`: keep a path only when it is not
relative to (a non-strict descendant of) some already-admitted path. -/
def mergeLoop : List (List String) → List (List String) → List (List String)
  | merged, [] => merged
  | merged, p :: ps =>
    if merged.any (fun parent => isRelativeTo p parent) then mergeLoop merged ps
    else mergeLoop (merged ++ [p]) ps

/-- `PackageWatchdog.merge_paths`: resolve every input, sort ascending by
component count — Python's `list.sort` is stable and any stable sort by key
computes the same list, here insertion sort inserting with non-strict `≤` —
then run the admission loop. -/
def merge_paths (raw_paths : List (List String)) : List (List String) :=
  let paths := raw_paths.map resolveParts
  let sorted := List.insertionSort partsLE paths
  mergeLoop [] sorted

/-- A path component that `resolveParts` leaves alone. -/
def cleanPart (s : String) : Prop := s ≠ "" ∧ s ≠ "." ∧ s ≠ ".."

instance (s : String) : Decidable (cleanPart s) := by
  unfold cleanPart
  infer_instance

lemma resolveStep_clean (acc : List String) (part : String) (hp : cleanPart part) :
    resolveStep acc part = acc ++ [part] := by
  obtain ⟨h1, h2, h3⟩ := hp
  simp [resolveStep, h1, h2, h3]

lemma foldl_resolveStep_clean :
    ∀ (l : List String) (acc : List String), (∀ s ∈ l, cleanPart s) →
      l.foldl resolveStep acc = acc ++ l
  | [], acc, _ => by simp
  | part :: rest, acc, hcl => by
    rw [List.foldl_cons, resolveStep_clean acc part (hcl part (by simp)),
      foldl_resolveStep_clean rest (acc ++ [part]) (fun s hs => hcl s (by simp [hs]))]
    simp

lemma resolveParts_of_clean (l : List String) (hcl : ∀ s ∈ l, cleanPart s) :
    resolveParts l = l := by
  simpa [resolveParts] using foldl_resolveStep_clean l [] hcl

lemma foldl_resolveStep_output_clean :
    ∀ (l : List String) (acc : List String), (∀ s ∈ acc, cleanPart s) →
      ∀ s ∈ l.foldl resolveStep acc, cleanPart s
  | [], _, hacc => by simpa using hacc
  | part :: rest, acc, hacc => by
    rw [List.foldl_cons]
    refine foldl_resolveStep_output_clean rest (resolveStep acc part) ?_
    intro s hs
    unfold resolveStep at hs
    by_cases h1 : part = "" ∨ part = "."
    · rw [if_pos h1] at hs
      exact hacc s hs
    · rw [if_neg h1] at hs
      by_cases h2 : part = ".."
      · rw [if_pos h2] at hs
        exact hacc s ((List.dropLast_sublist acc).subset hs)
      · rw [if_neg h2] at hs
        rcases List.mem_append.mp hs with hsa | hsp
        · exact hacc s hsa
        · have : s = part := by simpa using hsp
          subst this
          exact ⟨fun h => h1 (Or.inl h), fun h => h1 (Or.inr h), h2⟩

lemma resolveParts_clean (l : List String) : ∀ s ∈ resolveParts l, cleanPart s :=
  foldl_resolveStep_output_clean l [] (by simp)

lemma resolveParts_idem (l : List String) : resolveParts (resolveParts l) = resolveParts l :=
  resolveParts_of_clean _ (resolveParts_clean l)

lemma isRelativeTo_append (A X : List String) : isRelativeTo (A ++ X) A = true := by
  simp [isRelativeTo]

lemma isRelativeTo_append_incomparable (A X E : List String)
    (hAE : A.isPrefixOf E = false) (hEA : E.isPrefixOf A = false) :
    isRelativeTo (A ++ X) E = false := by
  simp only [isRelativeTo]
  cases hcase : E.isPrefixOf (A ++ X) with
  | false => rfl
  | true =>
    have hE : List.IsPrefix E (A ++ X) := by simpa using hcase
    have hA : List.IsPrefix A (A ++ X) := List.prefix_append A X
    rcases List.prefix_or_prefix_of_prefix hE hA with h1 | h2
    · have : E.isPrefixOf A = true := by simpa using h1
      rw [this] at hEA
      cases hEA
    · have : A.isPrefixOf E = true := by simpa using h2
      rw [this] at hAE
      cases hAE

lemma mergeLoop_eq_append_sublist :
    ∀ (l merged : List (List String)),
      ∃ l2, List.Sublist l2 l ∧ mergeLoop merged l = merged ++ l2
  | [], merged => ⟨[], List.Sublist.refl [], by simp [mergeLoop]⟩
  | p :: ps, merged => by
    by_cases hany : merged.any (fun parent => isRelativeTo p parent) = true
    · obtain ⟨l2, hsub, heq⟩ := mergeLoop_eq_append_sublist ps merged
      exact ⟨l2, List.Sublist.cons p hsub, by simpa [mergeLoop, hany] using heq⟩
    · obtain ⟨l2, hsub, heq⟩ := mergeLoop_eq_append_sublist ps (merged ++ [p])
      refine ⟨p :: l2, List.Sublist.cons₂ p hsub, ?_⟩
      rw [show mergeLoop merged (p :: ps) = mergeLoop (merged ++ [p]) ps from by
        simp [mergeLoop, hany]]
      rw [heq]
      simp

lemma mergeLoop_pairwise :
    ∀ (l merged : List (List String)),
      merged.Pairwise (fun x y => isRelativeTo y x = false) →
      (mergeLoop merged l).Pairwise (fun x y => isRelativeTo y x = false)
  | [], merged, hpw => by simpa [mergeLoop] using hpw
  | p :: ps, merged, hpw => by
    by_cases hany : merged.any (fun parent => isRelativeTo p parent) = true
    · rw [show mergeLoop merged (p :: ps) = mergeLoop merged ps from by
        simp [mergeLoop, hany]]
      exact mergeLoop_pairwise ps merged hpw
    · rw [show mergeLoop merged (p :: ps) = mergeLoop (merged ++ [p]) ps from by
        simp [mergeLoop, hany]]
      refine mergeLoop_pairwise ps (merged ++ [p]) ?_
      rw [List.pairwise_append]
      refine ⟨hpw, by simp, ?_⟩
      intro x hx y hy
      have hyp : y = p := by simpa using hy
      subst hyp
      have := List.any_eq_false.mp (by simpa using hany)
      simpa using this x hx

lemma mergeLoop_of_pairwise :
    ∀ (l merged : List (List String)),
      l.Pairwise (fun x y => isRelativeTo y x = false) →
      (∀ m ∈ merged, ∀ y ∈ l, isRelativeTo y m = false) →
      mergeLoop merged l = merged ++ l
  | [], merged, _, _ => by simp [mergeLoop]
  | x :: xs, merged, hpw, hcross => by
    have hany : merged.any (fun parent => isRelativeTo x parent) = false := by
      rw [List.any_eq_false]
      intro m hm
      simp [hcross m hm x (by simp)]
    rw [show mergeLoop merged (x :: xs) = mergeLoop (merged ++ [x]) xs from by
      simp [mergeLoop, hany]]
    rw [mergeLoop_of_pairwise xs (merged ++ [x]) (List.Pairwise.of_cons hpw) ?_]
    · simp
    · intro m hm y hy
      rcases List.mem_append.mp hm with hm1 | hm2
      · exact hcross m hm1 y (by simp [hy])
      · have : m = x := by simpa using hm2
        subst this
        exact (List.pairwise_cons.mp hpw).1 y hy

/-- C9: `merge_paths` is idempotent — running the merge on its own output
returns the output unchanged, for every list of absolute paths. -/
theorem C9_merge_idempotent (raw_paths : List (List String)) :
    merge_paths (merge_paths raw_paths) = merge_paths raw_paths := by
  obtain ⟨out2, hsub, hout⟩ :=
    mergeLoop_eq_append_sublist (List.insertionSort partsLE (raw_paths.map resolveParts)) []
  have hout2 : mergeLoop [] (List.insertionSort partsLE (raw_paths.map resolveParts)) = out2 := by
    simpa using hout
  have hmp : merge_paths raw_paths = out2 := by
    simpa [merge_paths] using hout2
  have hmapid : out2.map resolveParts = out2 := by
    have hmem : ∀ x ∈ out2, resolveParts x = x := by
      intro x hx
      have hxL : x ∈ List.insertionSort partsLE (raw_paths.map resolveParts) := hsub.subset hx
      have hxm : x ∈ raw_paths.map resolveParts :=
        (List.perm_insertionSort partsLE _).subset hxL
      obtain ⟨y, _, rfl⟩ := List.mem_map.mp hxm
      exact resolveParts_idem y
    calc out2.map resolveParts = out2.map id := List.map_congr_left hmem
      _ = out2 := List.map_id out2
  have hsorted : List.Pairwise partsLE out2 :=
    List.Pairwise.sublist hsub (List.sorted_insertionSort partsLE (raw_paths.map resolveParts))
  have hss : List.insertionSort partsLE out2 = out2 := List.Sorted.insertionSort_eq hsorted
  have hpw : out2.Pairwise (fun x y => isRelativeTo y x = false) := by
    have := mergeLoop_pairwise (List.insertionSort partsLE (raw_paths.map resolveParts)) []
      List.Pairwise.nil
    rwa [hout2] at this
  have hre : mergeLoop [] out2 = out2 := by
    simpa using mergeLoop_of_pairwise out2 [] hpw (by intro m hm; simp at hm)
  rw [hmp]
  simp only [merge_paths]
  rw [hmapid, hss, hre]

/-- C6: merging canonicalises inputs, sorts ascending by component depth
(stably), and admits a path only when it is not a non-strict descendant of an
already-admitted path, so identical paths collapse and descendants are
absorbed by ancestors: for any nesting depths, `merge([A, A/B, A/C/D, E])`
returns exactly the two roots `A` and `E` in depth order (for `E` unrelated to
`A` and canonical components). -/
theorem C6_merge_example (A B C D E : List String)
    (hA : ∀ s ∈ A, cleanPart s) (hB : ∀ s ∈ B, cleanPart s)
    (hC : ∀ s ∈ C, cleanPart s) (hD : ∀ s ∈ D, cleanPart s)
    (hE : ∀ s ∈ E, cleanPart s)
    (hAE : A.isPrefixOf E = false) (hEA : E.isPrefixOf A = false) :
    merge_paths [A, A ++ B, A ++ C ++ D, E] =
      if E.length < A.length then [E, A] else [A, E] := by
  have hABcl : ∀ s ∈ A ++ B, cleanPart s := fun s hs =>
    (List.mem_append.mp hs).elim (hA s) (hB s)
  have hACDcl : ∀ s ∈ A ++ C ++ D, cleanPart s := fun s hs =>
    (List.mem_append.mp hs).elim
      (fun hs2 => (List.mem_append.mp hs2).elim (hA s) (hC s)) (hD s)
  have rA := resolveParts_of_clean A hA
  have rAB := resolveParts_of_clean (A ++ B) hABcl
  have rACD := resolveParts_of_clean (A ++ C ++ D) hACDcl
  have rE := resolveParts_of_clean E hE
  have relAB : isRelativeTo (A ++ B) A = true := isRelativeTo_append A B
  have relACD : isRelativeTo (A ++ (C ++ D)) A = true := isRelativeTo_append A (C ++ D)
  have relEA : isRelativeTo E A = false := hAE
  have relAE : isRelativeTo A E = false := hEA
  have relABE : isRelativeTo (A ++ B) E = false :=
    isRelativeTo_append_incomparable A B E hAE hEA
  have relACDE : isRelativeTo (A ++ (C ++ D)) E = false :=
    isRelativeTo_append_incomparable A (C ++ D) E hAE hEA
  have hAAB : partsLE A (A ++ B) := by simp [partsLE]
  have hAACD : partsLE A (A ++ (C ++ D)) := by simp [partsLE]
  simp only [merge_paths, List.map_cons, List.map_nil, rA, rAB, rACD, rE]
  by_cases h1 : partsLE (A ++ (C ++ D)) E <;>
    by_cases h2 : partsLE (A ++ B) E <;>
      by_cases h3 : partsLE (A ++ B) (A ++ (C ++ D)) <;>
        by_cases h4 : partsLE A E
  all_goals
    simp [List.insertionSort, List.orderedInsert, h1, h2, h3, h4, hAAB, hAACD,
      mergeLoop, relAB, relACD, relEA, relAE, relABE, relACDE]
  all_goals
    simp only [partsLE, List.length_append] at h1 h2 h3 h4
    split_ifs with hlt
  all_goals first | rfl | (exfalso; omega)

theorem C6_witness :
    (∀ s ∈ (["home", "proj"] : List String), cleanPart s)
    ∧ (["home", "proj"] : List String).isPrefixOf ["var", "data"] = false
    ∧ (["var", "data"] : List String).isPrefixOf ["home", "proj"] = false
    ∧ merge_paths [["home", "proj"], ["home", "proj"] ++ ["src"],
        ["home", "proj"] ++ ["gen"] ++ ["js"], ["var", "data"]] =
      if (["var", "data"] : List String).length < (["home", "proj"] : List String).length
      then [["var", "data"], ["home", "proj"]] else [["home", "proj"], ["var", "data"]] :=
  ⟨by decide, by decide, by decide,
   C6_merge_example ["home", "proj"] ["src"] ["gen"] ["js"] ["var", "data"]
     (by decide) (by decide) (by decide) (by decide) (by decide) (by decide) (by decide)⟩
